import Mathlib

/-!
Verification of the module-version resolution and archive-serialization core of
terraform-simple-registry against its natural-language specification.

The development shallowly embeds:
- the `hashicorp/go-version` library as used by the code (parsing of version
  strings, Semantic-Versioning-style precedence comparison, canonical string
  rendering),
- `module/module.go` (`AllVersions`, `LatestVersion`, `HasVersion`,
  `GetVersionTreeId`, `WriteVersionTar`, `writeGitTreeTar`) over an explicit
  model of the git object store as observed by this code,
- the protocol routes of `cmd/terraform-modules-v1-server/handler.go`
  (the `makeHandler(hostname, modules)` revision invoked from `main`) that the
  claims refer to: get-download-location, get-download-archive and the
  exact-version route.
-/

namespace SimpleRegistry

/-! ## Model of hashicorp/go-version

`Version` in go-version stores the parsed numeric segments (padded to at least
three), the prerelease string and the build metadata string.  The `original`
input string is retained by the library but never observed by this repository
(all rendering goes through `String()`), so it is omitted here.
-/

/-- Model of go-version's `Version` struct: parsed numeric segments (padded to
at least 3 during parsing), prerelease string and metadata string.  Segments
are modelled as `Nat` (the library stores nonnegative `int64` values parsed
from decimal digit runs). -/
structure GoVersion where
  segments : List Nat
  pre : String
  metadata : String
deriving DecidableEq, Repr

/-- Character-list prefix test, modelling Go's byte-wise `strings.HasPrefix`
for the ASCII literals this code uses. -/
def isPfxOf : List Char → List Char → Bool
  | [], _ => true
  | _ :: _, [] => false
  | a :: as, b :: bs => a = b && isPfxOf as bs

/-- String prefix test over the underlying character lists. -/
def strHasPfx (p s : String) : Bool :=
  isPfxOf p.data s.data

/-- String suffix test over the underlying character lists, modelling Go's
`strings.HasSuffix` for ASCII literals. -/
def strHasSfx (p s : String) : Bool :=
  isPfxOf p.data.reverse s.data.reverse

/-- Splitting a character list at every occurrence of a separator character,
modelling Go's `strings.Split` with a one-character separator (which is also
the behavior of the version grammar's dot/dash/plus structure). -/
def splitChar (c : Char) : List Char → List (List Char)
  | [] => [[]]
  | a :: rest =>
    match splitChar c rest with
    | [] => [[]]
    | g :: gs => if a = c then [] :: g :: gs else (a :: g) :: gs

/-- String split at a separator character. -/
def strSplitChar (c : Char) (s : String) : List String :=
  (splitChar c s.data).map String.mk

/-- Digits of a decimal character run folded to a `Nat`; the caller has
already checked that all characters are digits. -/
def natOfDigits (cs : List Char) : Nat :=
  cs.foldl (fun n c => n * 10 + (c.toNat - 48)) 0

/-- Models `strconv.ParseInt(s, 10, 64)` restricted to an all-digit string, as
used for the numeric version segments matched by go-version's regexp. -/
def parseSegment (s : String) : Option Nat :=
  if s.data.length > 0 && s.data.all Char.isDigit then some (natOfDigits s.data) else none

/-- Character class `[0-9A-Za-z-]` of go-version's prerelease and metadata
grammar. -/
def isVersionIdentChar (c : Char) : Bool :=
  c.isAlphanum || c == '-'

/-- Validity of a prerelease or metadata string: one or more nonempty
dot-separated runs of `[0-9A-Za-z-]` characters, per go-version's regexp. -/
def validIdentSeq (s : String) : Bool :=
  (splitChar '.' s.data).all (fun part => part.length > 0 && part.all isVersionIdentChar)

/-- Parses every numeric segment of the dot-separated core, failing if any is
not a nonempty digit run. -/
def parseSegments : List String → Option (List Nat)
  | [] => some []
  | s :: rest =>
    match parseSegment s, parseSegments rest with
    | some n, some ns => some (n :: ns)
    | _, _ => none

/-- Models go-version's `NewVersion`: an optional leading `v`, a dot-separated
run of decimal segments, an optional `-`-introduced prerelease and an optional
`+`-introduced metadata part, with segments padded with zeros to a minimum of
three.  The library implements this with an anchored regular expression; this
model covers the grammar as documented (the regexp additionally tolerates a
prerelease not introduced by `-`, a lax corner no claim depends on). -/
def NewVersion (input : String) : Option GoVersion :=
  let s := if strHasPfx "v" input then input.drop 1 else input
  let plusParts := strSplitChar '+' s
  match plusParts with
  | [] => none
  | core :: metaParts =>
    let meta := String.intercalate "+" metaParts
    if metaParts.length > 1 then none
    else if meta ≠ "" && !validIdentSeq meta then none
    else if metaParts.length == 1 && meta == "" then none
    else
      let dashParts := strSplitChar '-' core
      match dashParts with
      | [] => none
      | numeric :: preParts =>
        let pre := String.intercalate "-" preParts
        if preParts.length ≥ 1 && !validIdentSeq pre then none
        else
          match parseSegments (strSplitChar '.' numeric) with
          | none => none
          | some segs =>
            some { segments := segs ++ List.replicate (3 - segs.length) 0
                   pre := pre
                   metadata := meta }

/-- Models go-version's `String()`: segments joined with dots, then `-pre` and
`+metadata` when nonempty.  Because parsing pads to three segments, this is
the canonical rendering (e.g. input `1.0` renders as `1.0.0`). -/
def versionString (v : GoVersion) : String :=
  String.intercalate "." (v.segments.map toString)
    ++ (if v.pre = "" then "" else "-" ++ v.pre)
    ++ (if v.metadata = "" then "" else "+" ++ v.metadata)

/-- Models `strconv.ParseInt(s, 10, 64)` as used on prerelease parts in
go-version's `comparePart`: an optional sign followed by a nonempty digit
run. -/
def parsePartInt (s : String) : Option Int :=
  let neg := strHasPfx "-" s
  let digits := if strHasPfx "-" s || strHasPfx "+" s then s.data.drop 1 else s.data
  if digits.length > 0 && digits.all Char.isDigit then
    some (if neg then -(natOfDigits digits : Int) else (natOfDigits digits : Int))
  else none

/-- Go's byte-wise `<` on strings, used by `comparePart` for two non-numeric
parts; prerelease parts are ASCII so character-wise comparison coincides. -/
def goStrLess : List Char → List Char → Bool
  | [], [] => false
  | [], _ :: _ => true
  | _ :: _, [] => false
  | a :: as, b :: bs => if a = b then goStrLess as bs else decide (a < b)

/-- Models go-version's `comparePart`: equal strings compare equal; an empty
part loses to a numeric part and beats a non-numeric one; numeric parts order
before non-numeric parts; two numeric parts compare by value (falling to `-1`
when the values tie but the strings differ, as the library does); two
non-numeric parts compare by Go string order. -/
def comparePart (a b : String) : Int :=
  if a = b then 0
  else
    let aInt := parsePartInt a
    let bInt := parsePartInt b
    if a = "" then (if bInt.isSome then -1 else 1)
    else if b = "" then (if aInt.isSome then 1 else -1)
    else
      match aInt, bInt with
      | some _, none => -1
      | none, some _ => 1
      | none, none => if goStrLess b.toList a.toList then 1 else -1
      | some x, some y => if x > y then 1 else -1

/-- Pairwise comparison of prerelease parts with empty-string padding, as in
go-version's `comparePrereleases` loop: the first nonzero `comparePart`
decides. -/
def comparePartsList : List String → List String → Int
  | [], [] => 0
  | [], y :: ys =>
    let c := comparePart "" y
    if c ≠ 0 then c else comparePartsList [] ys
  | x :: xs, [] =>
    let c := comparePart x ""
    if c ≠ 0 then c else comparePartsList xs []
  | x :: xs, y :: ys =>
    let c := comparePart x y
    if c ≠ 0 then c else comparePartsList xs ys

/-- Models go-version's `comparePrereleases`: identical strings are equal,
otherwise the dot-separated parts are compared pairwise. -/
def comparePrereleases (a b : String) : Int :=
  if a = b then 0
  else comparePartsList (strSplitChar '.' a) (strSplitChar '.' b)

/-- Models the jagged segment-comparison loop of go-version's `Compare`: when
one side runs out of segments, the other side wins only if its remaining
segments are not all zero. -/
def compareSegmentsList : List Nat → List Nat → Int
  | [], [] => 0
  | [], ys => if ys.all (· = 0) then 0 else -1
  | xs, [] => if xs.all (· = 0) then 0 else 1
  | x :: xs, y :: ys =>
    if x = y then compareSegmentsList xs ys
    else if x < y then -1 else 1

/-- Models go-version's `Compare`: a quick canonical-string equality check;
for equal segment lists a release beats any prerelease and prereleases compare
by `comparePrereleases`; otherwise the segments decide (metadata is ignored
throughout). -/
def goCompare (a b : GoVersion) : Int :=
  if versionString a = versionString b then 0
  else if a.segments = b.segments then
    if a.pre = "" && b.pre = "" then 0
    else if a.pre = "" then 1
    else if b.pre = "" then -1
    else comparePrereleases a.pre b.pre
  else compareSegmentsList a.segments b.segments

/-- Models go-version's `LessThan`: `Compare < 0`. -/
def lessThanV (a b : GoVersion) : Bool :=
  decide (goCompare a b < 0)

/-- Models go-version's `Equal`: `Compare == 0`. -/
def equalV (a b : GoVersion) : Bool :=
  decide (goCompare a b = 0)

/-! ## Model of the git object store as observed by module/module.go

The code observes the store through git2go capabilities only: a reference-name
iterator (`NewReferenceNameIterator` / `Next`), reference lookup peeled to a
commit (`References.Lookup` / `Peel` / `AsCommit`), and object lookups while
walking a tree (`LookupTree`, `LookupBlob`).  Each capability is modelled by
the outcomes it can produce for this code.
-/

deriving instance DecidableEq for Except

/-- Error outcomes propagated by the module operations, tagged by origin:
iterator creation failure, a non-`ErrIterOver` failure from `it.Next()`, or a
failed object/reference lookup. -/
inductive GitError where
  | iterCreateFailed : GitError
  | iterNextFailed : GitError
  | lookupFailed : GitError
deriving DecidableEq, Repr

/-- Outcome of the reference-name iteration after yielding all its names:
either the normal `ErrIterOver` termination or some other error from
`Next()`. -/
inductive IterEnd where
  | over : IterEnd
  | fail : IterEnd
deriving DecidableEq, Repr

/-- Blob object as observed by the walk: its reported size and its content
bytes (the code reads `Size()` and `Contents()` separately). -/
structure GitBlob where
  size : Nat
  contents : List Nat
deriving DecidableEq, Repr

/-- Entry sequence of a git tree as observed by `writeGitTreeTar`, in index
order.  The content-addressed store is acyclic, so each object lookup the walk
performs is resolved in the model: a `subtreeOk` entry carries the looked-up
child tree and `subtreeFailed` models a failing `LookupTree` on that entry; a
`blobOk` entry carries the looked-up blob and `blobFailed` models a failing
`LookupBlob`; a `commitLink` entry is a submodule (`git.ObjectCommit`), for
which the walk performs no lookup at all. -/
inductive GitTree : Type where
  | nil : GitTree
  | subtreeOk (name : String) (sub : GitTree) (rest : GitTree) : GitTree
  | subtreeFailed (name : String) (rest : GitTree) : GitTree
  | blobOk (name : String) (filemode : Nat) (b : GitBlob) (rest : GitTree) : GitTree
  | blobFailed (name : String) (filemode : Nat) (rest : GitTree) : GitTree
  | commitLink (name : String) (rest : GitTree) : GitTree
deriving DecidableEq, Repr

/-- Concatenation of two entry sequences, used to state properties about an
entry's position within a tree. -/
def appendTree : GitTree → GitTree → GitTree
  | GitTree.nil, t => t
  | GitTree.subtreeOk name sub rest, t => GitTree.subtreeOk name sub (appendTree rest t)
  | GitTree.subtreeFailed name rest, t => GitTree.subtreeFailed name (appendTree rest t)
  | GitTree.blobOk name fm b rest, t => GitTree.blobOk name fm b (appendTree rest t)
  | GitTree.blobFailed name fm rest, t => GitTree.blobFailed name fm (appendTree rest t)
  | GitTree.commitLink name rest, t => GitTree.commitLink name (appendTree rest t)

/-- Commit object as observed by the code after peeling a tag reference: its
tree id rendered as a string, its committer timestamp, and its root tree
(`none` models a failing `commit.Tree()`). -/
structure GitCommit where
  treeId : String
  committerWhen : Nat
  tree : Option GitTree

/-- Association-list lookup, modelling a Go map / keyed lookup returning nil
when the key is absent. -/
def lookupAssoc {α : Type} : List (String × α) → String → Option α
  | [], _ => none
  | (k, v) :: rest, key => if k = key then some v else lookupAssoc rest key

/-- Model of one module's git repository (a `Module`'s store) as observed by
module.go: whether `NewReferenceNameIterator` succeeds, the reference names it
yields in order, how the iteration terminates, and the commit obtained by
looking up a reference name and peeling it to a commit (absence covers both a
failing `References.Lookup` and a failing `Peel`/`AsCommit`, which the code
treats alike by propagating the error). -/
structure Store where
  iterStart : Bool
  iterNames : List String
  iterEnd : IterEnd
  tagCommits : List (String × GitCommit)

/-- Version-collection loop of `AllVersions`: keeps names with the
`refs/tags/v` tag naming convention whose remainder parses, silently dropping
the rest, in iteration order. -/
def collectVersions : List String → List GoVersion
  | [] => []
  | name :: rest =>
    if strHasPfx "refs/tags/v" name then
      match NewVersion (name.drop 11) with
      | none => collectVersions rest
      | some v => v :: collectVersions rest
    else collectVersions rest

/-- Inner loop of Go's insertion sort on the reversed sorted prefix: the new
element sinks left past each previous element `e` with `less(e, a)`, where the
comparator of `AllVersions` is `less(i, j) = ret[j].LessThan(ret[i])`. -/
def sinkRev (a : GoVersion) : List GoVersion → List GoVersion
  | [] => [a]
  | e :: rest => if lessThanV e a then e :: sinkRev a rest else a :: e :: rest

/-- Left fold of Go's insertion sort, carrying the reversed sorted prefix. -/
def sortGoAux : List GoVersion → List GoVersion → List GoVersion
  | acc, [] => acc
  | acc, a :: rest => sortGoAux (sinkRev a acc) rest

/-- Models the `sort.Slice(ret, func(i, j) bool { return ret[j].LessThan(ret[i]) })`
call of `AllVersions`: an in-place comparison sort into descending order.
Go's sort is exactly this insertion sort on slices shorter than 12 elements
and an unstable comparison sort with the same comparator in general. -/
def sortVersionsDesc (l : List GoVersion) : List GoVersion :=
  (sortGoAux [] l).reverse

/-- Models `Module.AllVersions`: fails when the iterator cannot be created,
collects the parseable `refs/tags/v...` names in iteration order, then fails
if iteration terminated with a non-`ErrIterOver` error, else sorts into
descending precedence order. -/
def AllVersions (s : Store) : Except GitError (List GoVersion) :=
  if s.iterStart then
    match s.iterEnd with
    | IterEnd.fail => Except.error GitError.iterNextFailed
    | IterEnd.over => Except.ok (sortVersionsDesc (collectVersions s.iterNames))
  else Except.error GitError.iterCreateFailed

/-- Models `Module.LatestVersion`: propagates `AllVersions` errors, returns
`nil` on an empty list and `versions[0]` otherwise. -/
def LatestVersion (s : Store) : Except GitError (Option GoVersion) :=
  match AllVersions s with
  | Except.error e => Except.error e
  | Except.ok versions =>
    match versions with
    | [] => Except.ok none
    | v :: _ => Except.ok (some v)

/-- Iteration loop of `Module.HasVersion`: returns true on the first tag name
whose parsed version is `Equal` to the query, otherwise keeps scanning and
reports how the iteration ends. -/
def hasVersionLoop (v : GoVersion) : List String → IterEnd → Except GitError Bool
  | [], IterEnd.over => Except.ok false
  | [], IterEnd.fail => Except.error GitError.iterNextFailed
  | name :: rest, e =>
    if strHasPfx "refs/tags/v" name then
      match NewVersion (name.drop 11) with
      | none => hasVersionLoop v rest e
      | some gotV => if equalV gotV v then Except.ok true else hasVersionLoop v rest e
    else hasVersionLoop v rest e

/-- Models `Module.HasVersion`: iterator creation failure aborts, then the
scan loop runs over the yielded names. -/
def HasVersion (s : Store) (v : GoVersion) : Except GitError Bool :=
  if s.iterStart then hasVersionLoop v s.iterNames s.iterEnd
  else Except.error GitError.iterCreateFailed

/-- Models `Module.getVersionCommit`: looks up `refs/tags/v` followed by the
canonical rendering of the version (Go's `%s` on a `*Version` calls
`String()`) and peels it to a commit. -/
def getVersionCommit (s : Store) (v : GoVersion) : Option GitCommit :=
  lookupAssoc s.tagCommits ("refs/tags/v" ++ versionString v)

/-- Models `Module.GetVersionTreeId`: the tree id of the version's peeled
commit, or the propagated lookup failure. -/
def GetVersionTreeId (s : Store) (v : GoVersion) : Except GitError String :=
  match getVersionCommit s v with
  | none => Except.error GitError.lookupFailed
  | some c => Except.ok c.treeId

/-! ## Model of the tar serialization (WriteVersionTar / writeGitTreeTar)

The tar stream is modelled as the sequence of items handed to the tar writer:
headers (`tw.WriteHeader`) and file content writes (`tw.Write`).  The
underlying output stream is treated as infallible, matching the claims under
scrutiny, which are about read failures from the store; the code ignores the
result of `tw.WriteHeader` entirely.
-/

/-- Typeflag of an emitted tar header: `tar.TypeDir` or `tar.TypeReg`. -/
inductive TarType where
  | dir : TarType
  | reg : TarType
deriving DecidableEq, Repr

/-- Item handed to the tar writer: a header with the fields `writeGitTreeTar`
populates, or a run of content bytes. -/
inductive TarItem where
  | header (name : String) (mode : Nat) (typeflag : TarType) (size : Nat)
      (modTime : Nat) (changeTime : Nat) (accessTime : Nat) : TarItem
  | bytes (contents : List Nat) : TarItem
deriving DecidableEq, Repr

/-- Models `Module.writeGitTreeTar` on the entry sequence of a tree: directory
entries emit a trailing-slash header with mode `0755` before the subtree is
looked up (a failed lookup is skipped with `continue`; a failure inside the
recursive walk aborts); blob entries look up the blob (a failure aborts),
then emit a header carrying the entry's own filemode and the blob size,
followed by the content bytes; commit entries (submodules) match no case of
the `switch` and emit nothing.  Returns the items written so far together
with the error, if any, that ended the walk. -/
def writeGitTreeTar : GitTree → String → Nat → List TarItem × Option GitError
  | GitTree.nil, _, _ => ([], none)
  | GitTree.subtreeOk name sub rest, pathPfx, modTime =>
    let newPfx := pathPfx ++ name ++ "/"
    let hdr := TarItem.header newPfx 0o755 TarType.dir 0 modTime modTime modTime
    match writeGitTreeTar sub newPfx modTime with
    | (items, some e) => (hdr :: items, some e)
    | (items, none) =>
      let r := writeGitTreeTar rest pathPfx modTime
      (hdr :: items ++ r.1, r.2)
  | GitTree.subtreeFailed name rest, pathPfx, modTime =>
    let newPfx := pathPfx ++ name ++ "/"
    let hdr := TarItem.header newPfx 0o755 TarType.dir 0 modTime modTime modTime
    let r := writeGitTreeTar rest pathPfx modTime
    (hdr :: r.1, r.2)
  | GitTree.blobOk name filemode blob rest, pathPfx, modTime =>
    let hdr := TarItem.header (pathPfx ++ name) filemode TarType.reg blob.size
      modTime modTime modTime
    let r := writeGitTreeTar rest pathPfx modTime
    (hdr :: TarItem.bytes blob.contents :: r.1, r.2)
  | GitTree.blobFailed _ _ _, _, _ => ([], some GitError.lookupFailed)
  | GitTree.commitLink _ rest, pathPfx, modTime =>
    writeGitTreeTar rest pathPfx modTime

/-- Models `Module.WriteVersionTar`: resolves the version's commit (failure is
returned), takes the single timestamp from the commit's committer metadata and
the root tree (failure is returned), then walks the tree with an empty path
prefix.  The trailing padding written by closing the tar writer is not part of
the item stream model. -/
def WriteVersionTar (s : Store) (v : GoVersion) : List TarItem × Option GitError :=
  match getVersionCommit s v with
  | none => ([], some GitError.lookupFailed)
  | some commit =>
    match commit.tree with
    | none => ([], some GitError.lookupFailed)
    | some rootTree => writeGitTreeTar rootTree "" commit.committerWhen

/-! ## Model of the protocol router (handler.go, makeHandler(hostname, modules))

Each route is modelled as a function from its path variables, the configured
module map and the state of the git repositories on disk to the response.
`module.Load` is modelled by a lookup of the configured `git_dir` in an
environment of openable stores (absence means `Load` returns nil).  The
response records the status code, the headers the handler sets, and the body
as a structured value: the JSON module summary, or the gzip-compressed tar
stream the handler pipes through `gzip.NewWriter` (represented by the tar
items it compresses; `WriteVersionTar`'s error is ignored by the handler, so
the stream holds whatever was written before any failure). -/

/-- Module summary record serialized as the JSON response body, with the
fields of `apiModule`. -/
structure ApiModule where
  id : String
  nspace : String
  name : String
  provider : String
  version : String
deriving DecidableEq, Repr

/-- Body of a modelled response. -/
inductive RespBody where
  | empty : RespBody
  | json (m : ApiModule) : RespBody
  | gzipTar (items : List TarItem) : RespBody
deriving DecidableEq, Repr

/-- Modelled HTTP response: status code, headers set by the handler, body. -/
structure Response where
  status : Nat
  headers : List (String × String)
  body : RespBody
deriving DecidableEq, Repr

/-- Response of a bare `wr.WriteHeader(404)`. -/
def notFoundResp : Response := { status := 404, headers := [], body := RespBody.empty }

/-- Response of a bare `wr.WriteHeader(500)`. -/
def internalErrorResp : Response := { status := 500, headers := [], body := RespBody.empty }

/-- Per-module configuration, keeping the `git_dir` field the handler reads
(the declaration range is only used in log output). -/
structure ModuleCfg where
  gitDir : String
deriving DecidableEq, Repr

/-- Nested namespace → name → provider configuration map of `config.Modules`,
as association lists. -/
abbrev ModulesMap : Type :=
  List (String × List (String × List (String × ModuleCfg)))

/-- Environment mapping a `git_dir` to the store it opens; absence models
`module.Load` returning nil because the directory cannot be opened as a git
repository. -/
abbrev StoreEnv : Type := List (String × Store)

/-- Coordinate lookup chain shared by all routes taking (namespace, name,
provider): each missing level yields nil and the handler answers 404. -/
def lookupCfg (modules : ModulesMap) (ns nm pv : String) : Option ModuleCfg :=
  match lookupAssoc modules ns with
  | none => none
  | some byNs =>
    match lookupAssoc byNs nm with
    | none => none
    | some byName => lookupAssoc byName pv

/-- Models the get-download-location route
`/{namespace}/{name}/{provider}/{version}/download`: coordinate lookups and an
unparsable version give 404; a failed store open gives 500; `HasVersion`
failure gives 500 and a missing version 404; a `GetVersionTreeId` failure
gives 404; on success the handler sets `Content-Type: text/plain` and
`X-Terraform-Get: ./download/<treeId>.tgz`, writes no body, and net/http
completes the response with status 200. -/
def downloadLocation (modules : ModulesMap) (env : StoreEnv)
    (ns nm pv versionStr : String) : Response :=
  match lookupCfg modules ns nm pv with
  | none => notFoundResp
  | some cfg =>
    match NewVersion versionStr with
    | none => notFoundResp
    | some v =>
      match lookupAssoc env cfg.gitDir with
      | none => internalErrorResp
      | some store =>
        match HasVersion store v with
        | Except.error _ => internalErrorResp
        | Except.ok false => notFoundResp
        | Except.ok true =>
          match GetVersionTreeId store v with
          | Except.error _ => notFoundResp
          | Except.ok treeId =>
            { status := 200
              headers := [("Content-Type", "text/plain"),
                          ("X-Terraform-Get", "./download/" ++ treeId ++ ".tgz")]
              body := RespBody.empty }

/-- Models the `.tgz`-suffix stripping of the download-archive route: the
suffix is only there to placate go-getter and is ignored. -/
def stripTgz (s : String) : String :=
  if strHasSfx ".tgz" s then s.dropRight 4 else s

/-- Models the get-download-archive route
`/{namespace}/{name}/{provider}/{version}/download/{treeId}`: the same
coordinate/version/store checks as the location route, then the current tree
id is recomputed for the requested version and compared against the supplied
id after suffix stripping — a mismatch gives 404; a match streams the
gzip-compressed tar of the version with `Content-Type: application/x-gzip`
and a `Content-Disposition` filename built from the coordinate and the
canonical version. -/
def downloadArchive (modules : ModulesMap) (env : StoreEnv)
    (ns nm pv versionStr givenTreeId : String) : Response :=
  match lookupCfg modules ns nm pv with
  | none => notFoundResp
  | some cfg =>
    match NewVersion versionStr with
    | none => notFoundResp
    | some v =>
      match lookupAssoc env cfg.gitDir with
      | none => internalErrorResp
      | some store =>
        match HasVersion store v with
        | Except.error _ => internalErrorResp
        | Except.ok false => notFoundResp
        | Except.ok true =>
          match GetVersionTreeId store v with
          | Except.error _ => notFoundResp
          | Except.ok treeId =>
            let given := stripTgz givenTreeId
            if given ≠ treeId then notFoundResp
            else
              { status := 200
                headers := [("Content-Type", "application/x-gzip"),
                            ("Content-Disposition",
                              "attachment; filename=" ++ ns ++ "_" ++ nm ++ "_"
                                ++ pv ++ "_" ++ versionString v ++ ".tgz")]
                body := RespBody.gzipTar (WriteVersionTar store v).1 }

/-- Models the exact-version route `/{namespace}/{name}/{provider}/{version}`:
coordinate lookups and an unparsable version give 404; a failed store open
gives 500; a `HasVersion` failure gives 500 and a missing version 404; on
success the module summary is serialized with the canonical rendering of the
parsed version (`v.String()`), both standalone and inside the joined id.
JSON encoding of this record cannot fail, so that 500 branch is dead. -/
def exactVersion (modules : ModulesMap) (env : StoreEnv)
    (ns nm pv versionStr : String) : Response :=
  match lookupCfg modules ns nm pv with
  | none => notFoundResp
  | some cfg =>
    match NewVersion versionStr with
    | none => notFoundResp
    | some v =>
      match lookupAssoc env cfg.gitDir with
      | none => internalErrorResp
      | some store =>
        match HasVersion store v with
        | Except.error _ => internalErrorResp
        | Except.ok false => notFoundResp
        | Except.ok true =>
          { status := 200
            headers := []
            body := RespBody.json
              { id := ns ++ "/" ++ nm ++ "/" ++ pv ++ "/" ++ versionString v
                nspace := ns
                name := nm
                provider := pv
                version := versionString v } }

/-! ## Concrete fixtures used by counterexamples and witnesses -/

/-- Two content bytes, a small blob. -/
def blobHi : GitBlob := { size := 2, contents := [104, 105] }

/-- Commit tagged `v1.0.0` in the fixture stores: tree id `abc123`, one file. -/
def commitA : GitCommit :=
  { treeId := "abc123", committerWhen := 1500000000
    tree := some (GitTree.blobOk "main.tf" 0o644 blobHi GitTree.nil) }

/-- Commit tagged `v1.2.0` in the two-version fixture store. -/
def commitB : GitCommit :=
  { treeId := "def456", committerWhen := 1600000000
    tree := some (GitTree.blobOk "main.tf" 0o644 blobHi GitTree.nil) }

/-- Store with the single tag `v1.0.0` and a clean iterator. -/
def storeOne : Store :=
  { iterStart := true, iterNames := ["refs/tags/v1.0.0"], iterEnd := IterEnd.over
    tagCommits := [("refs/tags/v1.0.0", commitA)] }

/-- Store with the tags `v1.0.0` and `v1.2.0`, whose tree ids differ. -/
def storeTwo : Store :=
  { iterStart := true, iterNames := ["refs/tags/v1.0.0", "refs/tags/v1.2.0"]
    iterEnd := IterEnd.over
    tagCommits := [("refs/tags/v1.0.0", commitA), ("refs/tags/v1.2.0", commitB)] }

/-- Configuration mapping acme/widget/aws to the one-version store's git dir. -/
def cfgOne : ModulesMap := [("acme", [("widget", [("aws", { gitDir := "/git/one" })])])]

/-- Configuration mapping acme/widget/aws to the two-version store's git dir. -/
def cfgTwo : ModulesMap := [("acme", [("widget", [("aws", { gitDir := "/git/two" })])])]

/-- Environment in which both fixture git dirs open successfully. -/
def envBoth : StoreEnv := [("/git/one", storeOne), ("/git/two", storeTwo)]

/-- Version value parsed from `1.0.0` (and from `1.0`, after padding). -/
def ver100 : GoVersion := { segments := [1, 0, 0], pre := "", metadata := "" }

/-! ## Archive serialization: claims C2, C7, C8 -/

/-- Property that a tar item, if it is a header, carries the given timestamp
as its modification, change and access time. -/
def headerTimesAre (t : Nat) : TarItem → Prop
  | TarItem.header _ _ _ _ mt ct ta => mt = t ∧ ct = t ∧ ta = t
  | TarItem.bytes _ => True

/-- Every header emitted by the tree walk carries the walk's single timestamp
in all three time fields. -/
theorem writeGitTreeTar_times (t : GitTree) (pfx : String) (tm : Nat) :
    ∀ item ∈ (writeGitTreeTar t pfx tm).1, headerTimesAre tm item := by
  induction t generalizing pfx with
  | nil =>
    intro item hitem
    simp [writeGitTreeTar] at hitem
  | subtreeOk name sub rest ihsub ihrest =>
    intro item hitem
    simp only [writeGitTreeTar] at hitem
    cases hs : writeGitTreeTar sub (pfx ++ name ++ "/") tm with
    | mk items err =>
      rw [hs] at hitem
      cases err with
      | some e =>
        simp only [List.mem_cons] at hitem
        rcases hitem with h | h
        · subst h; exact ⟨rfl, rfl, rfl⟩
        · exact ihsub (pfx ++ name ++ "/") item (by rw [hs]; exact h)
      | none =>
        simp only [List.mem_cons, List.mem_append] at hitem
        rcases hitem with (h | h) | h
        · subst h; exact ⟨rfl, rfl, rfl⟩
        · exact ihsub (pfx ++ name ++ "/") item (by rw [hs]; exact h)
        · exact ihrest pfx item h
  | subtreeFailed name rest ihrest =>
    intro item hitem
    simp only [writeGitTreeTar, List.mem_cons] at hitem
    rcases hitem with h | h
    · subst h; exact ⟨rfl, rfl, rfl⟩
    · exact ihrest pfx item h
  | blobOk name filemode blob rest ihrest =>
    intro item hitem
    simp only [writeGitTreeTar, List.mem_cons] at hitem
    rcases hitem with h | h | h
    · subst h; exact ⟨rfl, rfl, rfl⟩
    · subst h; exact trivial
    · exact ihrest pfx item h
  | blobFailed name filemode rest _ =>
    intro item hitem
    simp [writeGitTreeTar] at hitem
  | commitLink name rest ihrest =>
    intro item hitem
    simp only [writeGitTreeTar] at hitem
    exact ihrest pfx item hitem

/-- Claim C7: every entry emitted by `WriteVersionTar` for a version that
resolves to a commit carries that commit's committer timestamp uniformly as
its modification, access and change time. -/
theorem writeVersionTar_uniform_times (s : Store) (v : GoVersion) (c : GitCommit)
    (hc : getVersionCommit s v = some c) :
    ∀ item ∈ (WriteVersionTar s v).1, headerTimesAre c.committerWhen item := by
  intro item hitem
  cases htree : c.tree with
  | none =>
    unfold WriteVersionTar at hitem
    rw [hc] at hitem
    simp only [htree] at hitem
    simp at hitem
  | some root =>
    unfold WriteVersionTar at hitem
    rw [hc] at hitem
    simp only [htree] at hitem
    exact writeGitTreeTar_times root "" c.committerWhen item hitem

/-- Witness for C7: in the fixture store, the emitted file header carries the
commit's committer time in all three fields. -/
theorem writeVersionTar_uniform_times_witness :
    headerTimesAre 1500000000
      (TarItem.header "main.tf" 420 TarType.reg 2 1500000000 1500000000 1500000000) :=
  writeVersionTar_uniform_times storeOne ver100 commitA rfl
    (TarItem.header "main.tf" 420 TarType.reg 2 1500000000 1500000000 1500000000)
    (by decide)

/-- Claim C8: a submodule entry (`git.ObjectCommit`) produces no output at
all — deleting it from any position of a tree leaves the emitted archive, and
the walk's outcome, unchanged. -/
theorem writeTar_commitLink_no_output (front back : GitTree) (nm pfx : String)
    (tm : Nat) :
    writeGitTreeTar (appendTree front (GitTree.commitLink nm back)) pfx tm
      = writeGitTreeTar (appendTree front back) pfx tm := by
  induction front generalizing pfx with
  | nil => simp only [appendTree, writeGitTreeTar]
  | subtreeOk name sub rest _ ihrest =>
    simp only [appendTree, writeGitTreeTar]; rw [ihrest]
  | subtreeFailed name rest ihrest =>
    simp only [appendTree, writeGitTreeTar]; rw [ihrest]
  | blobOk name fm b rest ihrest =>
    simp only [appendTree, writeGitTreeTar]; rw [ihrest]
  | blobFailed name fm rest _ =>
    simp only [appendTree, writeGitTreeTar]
  | commitLink name rest ihrest =>
    simp only [appendTree, writeGitTreeTar]; exact ihrest pfx

/-- Counterexample to claim C2: a failing subtree lookup (`LookupTree` error)
does not abort the walk — its directory header is still emitted, the failure
is silently skipped, the walk continues with the next sibling, and the walk
reports success. -/
theorem writeTar_subtree_failure_skipped_cex :
    writeGitTreeTar
        (GitTree.subtreeFailed "a" (GitTree.blobOk "b" 420 blobHi GitTree.nil)) "" 1000
      = ([TarItem.header "a/" 493 TarType.dir 0 1000 1000 1000,
          TarItem.header "b" 420 TarType.reg 2 1000 1000 1000,
          TarItem.bytes [104, 105]], none) := by
  decide

/-- Claim C2 as amended: a failed blob lookup aborts the walk at once with the
failure; a failure arising inside a subtree's recursive walk aborts after the
directory header and the subtree's partial output, without retracting emitted
items; but a failure to look up a subtree object itself is skipped — the
directory header is still emitted and the walk continues with the remaining
siblings. -/
theorem writeTar_failure_policy_amended (nm : String) (fm : Nat)
    (rest : GitTree) (pfx : String) (tm : Nat) :
    (writeGitTreeTar (GitTree.blobFailed nm fm rest) pfx tm
        = ([], some GitError.lookupFailed))
    ∧ (writeGitTreeTar (GitTree.subtreeFailed nm rest) pfx tm
        = (TarItem.header (pfx ++ nm ++ "/") 0o755 TarType.dir 0 tm tm tm
             :: (writeGitTreeTar rest pfx tm).1,
           (writeGitTreeTar rest pfx tm).2))
    ∧ (∀ sub items e,
        writeGitTreeTar sub (pfx ++ nm ++ "/") tm = (items, some e) →
          writeGitTreeTar (GitTree.subtreeOk nm sub rest) pfx tm
            = (TarItem.header (pfx ++ nm ++ "/") 0o755 TarType.dir 0 tm tm tm
                 :: items, some e)) := by
  refine ⟨rfl, rfl, ?_⟩
  intro sub items e hsub
  simp only [writeGitTreeTar, hsub]

/-- Witness for the amended C2: a subtree whose own walk fails (here, through
a failed blob lookup inside it) aborts the outer walk right after the
directory header. -/
theorem writeTar_failure_policy_amended_witness :
    writeGitTreeTar
        (GitTree.subtreeOk "d" (GitTree.blobFailed "x" 420 GitTree.nil) GitTree.nil) "" 7
      = ([TarItem.header "d/" 493 TarType.dir 0 7 7 7], some GitError.lookupFailed) :=
  (writeTar_failure_policy_amended "d" 420 GitTree.nil "" 7).2.2
    (GitTree.blobFailed "x" 420 GitTree.nil) [] GitError.lookupFailed rfl

/-! ## Version catalog: claims C5, C6, C9 -/

/-- Claim C5: `LatestVersion` is exactly the first element of `AllVersions`
(errors propagated), and it is absent — `nil` with no error — exactly when
`AllVersions` succeeds with the empty sequence. -/
theorem latestVersion_head_of_allVersions (s : Store) :
    (∀ l, AllVersions s = Except.ok l → LatestVersion s = Except.ok l.head?)
    ∧ (∀ e, AllVersions s = Except.error e → LatestVersion s = Except.error e)
    ∧ (LatestVersion s = Except.ok none ↔ AllVersions s = Except.ok []) := by
  refine ⟨?_, ?_, ?_⟩
  · intro l hl
    unfold LatestVersion
    rw [hl]
    cases l <;> rfl
  · intro e he
    unfold LatestVersion
    rw [he]
  · cases h : AllVersions s with
    | error e => simp [LatestVersion, h]
    | ok l => cases l <;> simp [LatestVersion, h]

/-- Witness for C5: on the single-version fixture store, `LatestVersion`
returns the head of `AllVersions`. -/
theorem latestVersion_head_of_allVersions_witness :
    LatestVersion storeOne = Except.ok (some ver100) :=
  (latestVersion_head_of_allVersions storeOne).1 [ver100] (by decide)

/-- Scan loop of `HasVersion` answers true exactly when some yielded name
carries the version-tag naming convention and parses to a version that is
precedence-equal to the query. -/
theorem hasVersionLoop_ok_true_iff (v : GoVersion) (names : List String) (e : IterEnd) :
    hasVersionLoop v names e = Except.ok true
      ↔ ∃ name ∈ names, strHasPfx "refs/tags/v" name = true
          ∧ ∃ v2, NewVersion (name.drop 11) = some v2 ∧ equalV v2 v = true := by
  induction names with
  | nil => cases e <;> simp [hasVersionLoop]
  | cons name rest ih =>
    by_cases hpfx : strHasPfx "refs/tags/v" name = true
    · cases hv : NewVersion (name.drop 11) with
      | none => simp [hasVersionLoop, hpfx, hv, ih]
      | some gotV =>
        by_cases heq : equalV gotV v = true
        · constructor
          · intro _
            exact ⟨name, List.mem_cons_self name rest, hpfx, gotV, hv, heq⟩
          · intro _
            simp [hasVersionLoop, hpfx, hv, heq]
        · simp [hasVersionLoop, hpfx, hv, heq, ih]
    · simp [hasVersionLoop, hpfx, ih]

/-- Claim C6: when the store's reference iterator can be created, `HasVersion`
answers true if and only if some reference name with the `refs/tags/v` tag
convention parses to a version that compares equal to the query under the
library's precedence equality (`Equal`, i.e. `Compare == 0`), not under raw
string equality. -/
theorem hasVersion_iff_equal_tag (s : Store) (v : GoVersion)
    (hstart : s.iterStart = true) :
    HasVersion s v = Except.ok true
      ↔ ∃ name ∈ s.iterNames, strHasPfx "refs/tags/v" name = true
          ∧ ∃ v2, NewVersion (name.drop 11) = some v2 ∧ equalV v2 v = true := by
  unfold HasVersion
  rw [hstart]
  simp only [if_true]
  exact hasVersionLoop_ok_true_iff v s.iterNames s.iterEnd

/-- Store fixture whose only tag is the differently-formatted `v1.0`. -/
def storeV10 : Store :=
  { iterStart := true, iterNames := ["refs/tags/v1.0"], iterEnd := IterEnd.over
    tagCommits := [] }

/-- Witness for C6: querying the version parsed from `1.0.0` finds the tag
`v1.0`, whose rendering differs but whose parsed version is precedence-equal. -/
theorem hasVersion_iff_equal_tag_witness :
    HasVersion storeV10 ver100 = Except.ok true :=
  (hasVersion_iff_equal_tag storeV10 ver100 rfl).mpr
    ⟨"refs/tags/v1.0", by decide, by decide, ver100, by decide, by decide⟩

/-- Store fixture whose reference iterator starts, yields one tag, then fails
with an error other than `ErrIterOver`. -/
def storeIterFail : Store :=
  { iterStart := true, iterNames := ["refs/tags/v1.0.0"], iterEnd := IterEnd.fail
    tagCommits := [] }

/-- Counterexample to claim C9: the enumeration mechanism of this store starts
successfully and yields a name, yet `AllVersions` still fails, because the
failure arises from a later `Next()` call — an error condition arising after
enumeration has begun. -/
theorem allVersions_midIteration_error_cex :
    storeIterFail.iterStart = true
    ∧ storeIterFail.iterNames = ["refs/tags/v1.0.0"]
    ∧ AllVersions storeIterFail = Except.error GitError.iterNextFailed :=
  ⟨rfl, rfl, rfl⟩

/-- References with no version-shaped name produce no collected version. -/
theorem collectVersions_eq_nil (names : List String)
    (h : ∀ name ∈ names, strHasPfx "refs/tags/v" name = false) :
    collectVersions names = [] := by
  induction names with
  | nil => rfl
  | cons name rest ih =>
    have hname := h name (List.mem_cons_self name rest)
    simp only [collectVersions, hname]
    exact ih fun n hn => h n (List.mem_cons_of_mem name hn)

/-- Claim C9 as amended: `AllVersions` returns the empty sequence with no
error whenever the iterator starts, completes with `ErrIterOver`, and yields
no version-shaped name; and it returns an error exactly when the iterator
cannot be created or when a `Next()` call fails mid-enumeration — the latter
is a failure arising after enumeration has begun. -/
theorem allVersions_error_conditions_amended (s : Store) :
    (s.iterStart = true → s.iterEnd = IterEnd.over →
      (∀ name ∈ s.iterNames, strHasPfx "refs/tags/v" name = false) →
      AllVersions s = Except.ok [])
    ∧ (∀ e, AllVersions s = Except.error e ↔
        (s.iterStart = false ∧ e = GitError.iterCreateFailed)
        ∨ (s.iterStart = true ∧ s.iterEnd = IterEnd.fail
            ∧ e = GitError.iterNextFailed)) := by
  constructor
  · intro h1 h2 h3
    have hc := collectVersions_eq_nil s.iterNames h3
    simp [AllVersions, h1, h2, hc]
    rfl
  · intro e
    obtain ⟨start, names, iend, tags⟩ := s
    cases start <;> cases iend <;>
      simp [AllVersions] <;>
      constructor <;> intro h <;> simp_all

/-- Store fixture with a started, cleanly terminating iterator and no
version-shaped reference names. -/
def storeNoTags : Store :=
  { iterStart := true, iterNames := ["refs/heads/master"], iterEnd := IterEnd.over
    tagCommits := [] }

/-- Witness for the amended C9: a store holding only non-version references
yields the empty sequence without error. -/
theorem allVersions_error_conditions_amended_witness :
    AllVersions storeNoTags = Except.ok [] :=
  (allVersions_error_conditions_amended storeNoTags).1 rfl rfl (by decide)

/-! ## Ordering of AllVersions: claim C1 -/

/-- Sinking a new element into the reversed sorted prefix yields a permutation
of pushing it on top. -/
theorem sinkRev_perm (a : GoVersion) (l : List GoVersion) :
    (sinkRev a l).Perm (a :: l) := by
  induction l with
  | nil => exact List.Perm.refl _
  | cons e rest ih =>
    simp only [sinkRev]
    cases hlt : lessThanV e a with
    | true =>
      simp only [if_true]
      exact (ih.cons e).trans (List.Perm.swap a e rest)
    | false =>
      simp only [Bool.false_eq_true, if_false]
      exact List.Perm.refl _

/-- The insertion-sort fold permutes its two inputs together. -/
theorem sortGoAux_perm (l : List GoVersion) :
    ∀ acc, (sortGoAux acc l).Perm (l ++ acc) := by
  induction l with
  | nil => intro acc; simp [sortGoAux]
  | cons a rest ih =>
    intro acc
    simp only [sortGoAux]
    refine List.Perm.trans (ih (sinkRev a acc)) ?_
    refine List.Perm.trans (List.Perm.append_left rest (sinkRev_perm a acc)) ?_
    exact List.perm_middle

/-- The sorted sequence is a permutation of the collected versions: every
parseable tag is retained, including precedence-equal duplicates. -/
theorem sortVersionsDesc_perm (l : List GoVersion) : (sortVersionsDesc l).Perm l := by
  unfold sortVersionsDesc
  refine List.Perm.trans (List.reverse_perm _) ?_
  refine List.Perm.trans (sortGoAux_perm l []) ?_
  rw [List.append_nil]

/-- Sinking preserves the reversed-prefix ordering invariant, assuming the
comparator is asymmetric and cotransitive on the set of values involved. -/
theorem sinkRev_pairwise (S : List GoVersion)
    (hasym : ∀ x ∈ S, ∀ y ∈ S, lessThanV x y = true → lessThanV y x = false)
    (hcot : ∀ x ∈ S, ∀ y ∈ S, ∀ z ∈ S,
      lessThanV x z = true → lessThanV x y = true ∨ lessThanV y z = true)
    (a : GoVersion) (ha : a ∈ S) :
    ∀ acc, (∀ x ∈ acc, x ∈ S) →
      acc.Pairwise (fun x y => lessThanV y x = false) →
      (sinkRev a acc).Pairwise (fun x y => lessThanV y x = false) := by
  intro acc
  induction acc with
  | nil =>
    intro _ _
    simp [sinkRev]
  | cons e rest ih =>
    intro hsub hp
    have he : e ∈ S := hsub e (List.mem_cons_self e rest)
    have hrestSub : ∀ x ∈ rest, x ∈ S := fun x hx => hsub x (List.mem_cons_of_mem e hx)
    rw [List.pairwise_cons] at hp
    obtain ⟨hhead, hprest⟩ := hp
    simp only [sinkRev]
    cases hlt : lessThanV e a with
    | true =>
      simp only [if_true]
      rw [List.pairwise_cons]
      constructor
      · intro x hx
        rcases List.mem_cons.mp ((sinkRev_perm a rest).mem_iff.mp hx) with hxa | hxr
        · subst hxa; exact hasym e he x ha hlt
        · exact hhead x hxr
      · exact ih hrestSub hprest
    | false =>
      simp only [Bool.false_eq_true, if_false]
      rw [List.pairwise_cons]
      constructor
      · intro x hx
        rcases List.mem_cons.mp hx with hxe | hxr
        · subst hxe; exact hlt
        · by_contra hxa
          rw [Bool.not_eq_false] at hxa
          rcases hcot x (hrestSub x hxr) e he a ha hxa with hc | hc
          · rw [hhead x hxr] at hc; exact Bool.false_ne_true hc
          · rw [hlt] at hc; exact Bool.false_ne_true hc
      · rw [List.pairwise_cons]
        exact ⟨hhead, hprest⟩

/-- The insertion-sort fold maintains the reversed-prefix ordering invariant
over a whole input list drawn from the value set. -/
theorem sortGoAux_pairwise (S : List GoVersion)
    (hasym : ∀ x ∈ S, ∀ y ∈ S, lessThanV x y = true → lessThanV y x = false)
    (hcot : ∀ x ∈ S, ∀ y ∈ S, ∀ z ∈ S,
      lessThanV x z = true → lessThanV x y = true ∨ lessThanV y z = true) :
    ∀ (l acc : List GoVersion), (∀ x ∈ l, x ∈ S) → (∀ x ∈ acc, x ∈ S) →
      acc.Pairwise (fun x y => lessThanV y x = false) →
      (sortGoAux acc l).Pairwise (fun x y => lessThanV y x = false) := by
  intro l
  induction l with
  | nil =>
    intro acc _ _ hp
    simpa [sortGoAux] using hp
  | cons a rest ih =>
    intro acc hl hacc hp
    have ha : a ∈ S := hl a (List.mem_cons_self a rest)
    simp only [sortGoAux]
    refine ih (sinkRev a acc) (fun x hx => hl x (List.mem_cons_of_mem a hx)) ?_ ?_
    · intro x hx
      rcases List.mem_cons.mp ((sinkRev_perm a acc).mem_iff.mp hx) with hxa | hxacc
      · subst hxa; exact ha
      · exact hacc x hxacc
    · exact sinkRev_pairwise S hasym hcot a ha acc hacc hp

/-- The modelled `sort.Slice` call produces a sequence that is descending by
precedence — non-strictly: no earlier element is `LessThan` a later one —
whenever the comparator behaves as a strict weak order on the input values. -/
theorem sortVersionsDesc_pairwise (l : List GoVersion)
    (hasym : ∀ x ∈ l, ∀ y ∈ l, lessThanV x y = true → lessThanV y x = false)
    (hcot : ∀ x ∈ l, ∀ y ∈ l, ∀ z ∈ l,
      lessThanV x z = true → lessThanV x y = true ∨ lessThanV y z = true) :
    (sortVersionsDesc l).Pairwise (fun x y => lessThanV x y = false) := by
  unfold sortVersionsDesc
  rw [List.pairwise_reverse]
  exact sortGoAux_pairwise l hasym hcot l [] (fun x hx => hx) (by simp) (by simp)

/-- Counterexample to claim C1: a store holding the two differently-formatted
tags `v1.0` and `v1.0.0` — which parse to precedence-equal versions — makes
`AllVersions` return a sequence with two entries that compare equal, so the
sequence is not strictly descending. -/
theorem allVersions_equal_entries_cex :
    AllVersions
        { iterStart := true, iterNames := ["refs/tags/v1.0", "refs/tags/v1.0.0"]
          iterEnd := IterEnd.over, tagCommits := [] }
      = Except.ok [ver100, ver100]
    ∧ goCompare ver100 ver100 = 0 :=
  ⟨by decide, by decide⟩

/-- Claim C1 as amended: on a clean enumeration, `AllVersions` returns exactly
the parseable version-tagged references — retaining precedence-equal
duplicates arising from differently-formatted tags — in descending (but not
strictly descending) precedence order, provided the library comparator is
asymmetric and cotransitive on the parsed versions. -/
theorem allVersions_descending_amended (s : Store)
    (hstart : s.iterStart = true) (hend : s.iterEnd = IterEnd.over)
    (hasym : ∀ x ∈ collectVersions s.iterNames, ∀ y ∈ collectVersions s.iterNames,
      lessThanV x y = true → lessThanV y x = false)
    (hcot : ∀ x ∈ collectVersions s.iterNames, ∀ y ∈ collectVersions s.iterNames,
      ∀ z ∈ collectVersions s.iterNames,
      lessThanV x z = true → lessThanV x y = true ∨ lessThanV y z = true) :
    AllVersions s = Except.ok (sortVersionsDesc (collectVersions s.iterNames))
    ∧ (sortVersionsDesc (collectVersions s.iterNames)).Perm (collectVersions s.iterNames)
    ∧ (sortVersionsDesc (collectVersions s.iterNames)).Pairwise
        (fun x y => lessThanV x y = false) := by
  refine ⟨?_, sortVersionsDesc_perm _, sortVersionsDesc_pairwise _ hasym hcot⟩
  simp [AllVersions, hstart, hend]

/-- Store fixture with three distinct version tags. -/
def storeThree : Store :=
  { iterStart := true
    iterNames := ["refs/tags/v1.0.0", "refs/tags/v2.1.0", "refs/tags/v0.5.0"]
    iterEnd := IterEnd.over, tagCommits := [] }

/-- Witness for the amended C1: on a three-version store the comparator
hypotheses hold and the output is a descending permutation of the parsed
tags. -/
theorem allVersions_descending_amended_witness :
    AllVersions storeThree = Except.ok (sortVersionsDesc (collectVersions storeThree.iterNames))
    ∧ (sortVersionsDesc (collectVersions storeThree.iterNames)).Perm
        (collectVersions storeThree.iterNames)
    ∧ (sortVersionsDesc (collectVersions storeThree.iterNames)).Pairwise
        (fun x y => lessThanV x y = false) :=
  allVersions_descending_amended storeThree rfl rfl (by decide) (by decide)

/-! ## Protocol routes: claims C3, C4, C10 -/

/-- Counterexample to claim C3: on the fixture configuration the resolved tree
id of version 1.0.0 is `abc123`, yet the registry-specific header carries
`./download/abc123.tgz` — the handler appends the `.tgz` suffix itself, so the
payload is not the claimed `./download/<treeId>`. -/
theorem downloadLocation_suffix_cex :
    downloadLocation cfgOne envBoth "acme" "widget" "aws" "1.0.0"
      = { status := 200
          headers := [("Content-Type", "text/plain"),
                      ("X-Terraform-Get", "./download/abc123.tgz")]
          body := RespBody.empty }
    ∧ GetVersionTreeId storeOne ver100 = Except.ok "abc123"
    ∧ "./download/abc123.tgz" ≠ "./download/abc123" :=
  ⟨by decide, by decide, by decide⟩

/-- Claim C3 as amended: for a configured coordinate with an existing,
resolvable version, get-download-location responds with no body, content type
`text/plain`, and the registry-specific header `X-Terraform-Get` whose payload
is the relative path `./download/<treeId>.tgz` — with the archive suffix
appended by the handler; no archive bytes are streamed. -/
theorem downloadLocation_spec_amended (modules : ModulesMap) (env : StoreEnv)
    (ns nm pv versionStr : String) (cfg : ModuleCfg) (v : GoVersion)
    (store : Store) (treeId : String)
    (hcfg : lookupCfg modules ns nm pv = some cfg)
    (hv : NewVersion versionStr = some v)
    (hstore : lookupAssoc env cfg.gitDir = some store)
    (hhas : HasVersion store v = Except.ok true)
    (htree : GetVersionTreeId store v = Except.ok treeId) :
    downloadLocation modules env ns nm pv versionStr
      = { status := 200
          headers := [("Content-Type", "text/plain"),
                      ("X-Terraform-Get", "./download/" ++ treeId ++ ".tgz")]
          body := RespBody.empty } := by
  simp [downloadLocation, hcfg, hv, hstore, hhas, htree]

/-- Witness for the amended C3: the fixture request resolves to tree id
`abc123` and the header payload is `./download/abc123.tgz` with empty body. -/
theorem downloadLocation_spec_amended_witness :
    downloadLocation cfgOne envBoth "acme" "widget" "aws" "1.0.0"
      = { status := 200
          headers := [("Content-Type", "text/plain"),
                      ("X-Terraform-Get", "./download/" ++ "abc123" ++ ".tgz")]
          body := RespBody.empty } :=
  downloadLocation_spec_amended cfgOne envBoth "acme" "widget" "aws" "1.0.0"
    { gitDir := "/git/one" } ver100 storeOne "abc123" rfl (by decide) rfl (by decide) rfl

/-- Claim C4: get-download-archive recomputes the current tree id of the
requested version and compares it to the supplied id after stripping a
recognized `.tgz` suffix: any mismatch — including a supplied id that is valid
for a different version — yields NotFound with no body; only an exact match
streams the gzip-compressed archive, with the gzip MIME content type and a
content-disposition filename derived from the coordinate and the canonical
version. -/
theorem downloadArchive_treeId_check (modules : ModulesMap) (env : StoreEnv)
    (ns nm pv versionStr givenTreeId : String) (cfg : ModuleCfg) (v : GoVersion)
    (store : Store) (treeId : String)
    (hcfg : lookupCfg modules ns nm pv = some cfg)
    (hv : NewVersion versionStr = some v)
    (hstore : lookupAssoc env cfg.gitDir = some store)
    (hhas : HasVersion store v = Except.ok true)
    (htree : GetVersionTreeId store v = Except.ok treeId) :
    (stripTgz givenTreeId ≠ treeId →
      downloadArchive modules env ns nm pv versionStr givenTreeId = notFoundResp)
    ∧ (stripTgz givenTreeId = treeId →
        downloadArchive modules env ns nm pv versionStr givenTreeId
          = { status := 200
              headers := [("Content-Type", "application/x-gzip"),
                          ("Content-Disposition",
                            "attachment; filename=" ++ ns ++ "_" ++ nm ++ "_"
                              ++ pv ++ "_" ++ versionString v ++ ".tgz")]
              body := RespBody.gzipTar (WriteVersionTar store v).1 }) := by
  constructor
  · intro hne
    simp [downloadArchive, hcfg, hv, hstore, hhas, htree, hne]
  · intro heq
    simp [downloadArchive, hcfg, hv, hstore, hhas, htree, heq]

/-- Witness for C4: requesting version 1.0.0 of the two-version fixture while
supplying `def456` — the valid tree id of version 1.2.0 of the same module —
yields NotFound. -/
theorem downloadArchive_treeId_check_witness :
    downloadArchive cfgTwo envBoth "acme" "widget" "aws" "1.0.0" "def456" = notFoundResp
    ∧ GetVersionTreeId storeTwo { segments := [1, 2, 0], pre := "", metadata := "" }
        = Except.ok "def456" :=
  ⟨(downloadArchive_treeId_check cfgTwo envBoth "acme" "widget" "aws" "1.0.0" "def456"
      { gitDir := "/git/two" } ver100 storeTwo "abc123"
      rfl (by decide) rfl (by decide) rfl).1 (by decide),
   by decide⟩

/-- Claim C10: the exact-version route returns a module summary whose version
field (and id suffix) is the canonical rendering of the parsed requested
version whenever all three coordinate dimensions are configured, the version
parses, and a precedence-equal tagged version exists; a missing coordinate, an
unparsable version, or a missing version yield NotFound (store failures,
excluded here, yield the internal error status). -/
theorem exactVersion_route_spec (modules : ModulesMap) (env : StoreEnv)
    (ns nm pv versionStr : String) :
    (lookupCfg modules ns nm pv = none →
      exactVersion modules env ns nm pv versionStr = notFoundResp)
    ∧ (∀ cfg, lookupCfg modules ns nm pv = some cfg →
        NewVersion versionStr = none →
        exactVersion modules env ns nm pv versionStr = notFoundResp)
    ∧ (∀ cfg v store, lookupCfg modules ns nm pv = some cfg →
        NewVersion versionStr = some v →
        lookupAssoc env cfg.gitDir = some store →
        HasVersion store v = Except.ok false →
        exactVersion modules env ns nm pv versionStr = notFoundResp)
    ∧ (∀ cfg v store, lookupCfg modules ns nm pv = some cfg →
        NewVersion versionStr = some v →
        lookupAssoc env cfg.gitDir = some store →
        HasVersion store v = Except.ok true →
        exactVersion modules env ns nm pv versionStr
          = { status := 200, headers := []
              body := RespBody.json
                { id := ns ++ "/" ++ nm ++ "/" ++ pv ++ "/" ++ versionString v
                  nspace := ns, name := nm, provider := pv
                  version := versionString v } }) := by
  refine ⟨?_, ?_, ?_, ?_⟩ <;> intros <;> simp [exactVersion, *]

/-- Witness for C10: requesting the non-canonical path segment `1.0` returns
the summary rendered with the canonical `1.0.0`, resolved through the
precedence-equal tag `v1.0.0`. -/
theorem exactVersion_route_spec_witness :
    exactVersion cfgOne envBoth "acme" "widget" "aws" "1.0"
      = { status := 200, headers := []
          body := RespBody.json
            { id := "acme/widget/aws/1.0.0", nspace := "acme", name := "widget"
              provider := "aws", version := "1.0.0" } }
    ∧ "1.0.0" ≠ "1.0" := by
  constructor
  · have h := (exactVersion_route_spec cfgOne envBoth "acme" "widget" "aws" "1.0").2.2.2
      { gitDir := "/git/one" } ver100 storeOne rfl (by decide) rfl (by decide)
    rw [h]
    decide
  · decide

end SimpleRegistry
